import Mathlib

/-!
Verification of `easyfsl/utils.py`: a shallow embedding of its pure
computational content, followed by theorems checking the specification's
claims about it.

Modelling conventions:
* Python floats are modelled as `ℚ` (all the arithmetic in the claims is
  exact); a numpy NaN (the mean of an empty array) is modelled as `none`.
* A raised Python exception is modelled as `Except.error` (for
  `sliding_average`'s explicit `ValueError`) or as `none` (for the
  `ZeroDivisionError` in `evaluate`, the `torch.cat` failure on an empty
  tensor list, and the pandas length-mismatch failure in
  `predict_embeddings`).
* Tensors are modelled as lists; an image is an opaque value of a type
  parameter `α`; class labels are `ℤ`.
* The mutable classifier object is modelled by explicit state passing:
  a `FewShotClassifier σ α` packages the two capabilities the code uses
  (`process_support_set`, which returns the updated state, and the
  forward pass producing a score matrix).
-/

namespace EasyFSL

/-- Mean of a list of rationals, as `np.mean` computes it: sum divided by
length, and `none` (numpy's NaN) on an empty array. -/
def listMean (l : List ℚ) : Option ℚ :=
  if l.length = 0 then none else some (l.sum / (l.length : ℚ))

/-- Python's slice `v[start:]` for an arbitrary (possibly negative) integer
start index: a negative start counts from the end of the list and is clamped
to 0, a start beyond the length yields the empty list. -/
def pySliceFrom (start : ℤ) (v : List ℚ) : List ℚ :=
  if start < 0 then v.drop ((v.length : ℤ) + start).toNat
  else v.drop start.toNat

/-- Embedding of `sliding_average(value_list, window)`
(src/easyfsl/utils.py:37-53): raises `ValueError` on an empty list
(modelled as `Except.error`), otherwise returns
`np.asarray(value_list[-window:]).mean()`; the mean of an empty slice is
numpy's NaN, modelled as `none`. -/
def sliding_average (value_list : List ℚ) (window : ℤ) : Except String (Option ℚ) :=
  if value_list.length = 0 then
    Except.error "Cannot perform sliding average on an empty list."
  else
    Except.ok (listMean (pySliceFrom (-window) value_list))

/-- Embedding of `mean_squared_error(y_true, y_pred)`
(src/easyfsl/utils.py:239-240): `np.mean((y_true - y_pred)**2)`, the
elementwise difference of two equal-length arrays squared and averaged. -/
def mean_squared_error (y_true y_pred : List ℚ) : Option ℚ :=
  listMean (List.zipWith (fun a b => (a - b) ^ 2) y_true y_pred)

/-- Embedding of `mean_absolute_error(y_true, y_pred)`
(src/easyfsl/utils.py:242-243): `np.mean(np.abs(y_true - y_pred))`. -/
def mean_absolute_error (y_true y_pred : List ℚ) : Option ℚ :=
  listMean (List.zipWith (fun a b => |a - b|) y_true y_pred)

/-- Index of the first maximal entry of a score row, the semantics of
`torch.max(predictions, 1)[1]` for one row of the score matrix. -/
def argmaxIdx : List ℚ → ℕ
  | [] => 0
  | [_] => 0
  | x :: y :: ys =>
    if (y :: ys).getD (argmaxIdx (y :: ys)) 0 ≤ x then 0
    else argmaxIdx (y :: ys) + 1

/-- The two capabilities of a `FewShotClassifier` that the evaluation code
uses, with the mutation of `process_support_set` made explicit as a state
transition on a state type `σ`. -/
structure FewShotClassifier (σ α : Type) where
  process_support_set : σ → List α → List ℤ → σ
  forward : σ → List α → List (List ℚ)

/-- One few-shot episode, the 4 data tensors of the 5-tuple yielded by the
task data loader (the fifth component, task metadata, is ignored by the
code and omitted here). -/
structure Task (α : Type) where
  support_images : List α
  support_labels : List ℤ
  query_images : List α
  query_labels : List ℤ

/-- Embedding of `evaluate_on_one_task(model, ...)`
(src/easyfsl/utils.py:92-111): adapt the model to the support set, run the
forward pass on the query images, take the per-row argmax as predicted
labels, and return (new model state, (number of correct predictions,
`len(query_labels)`, predicted labels, query labels)). -/
def evaluate_on_one_task {σ α : Type} (model : FewShotClassifier σ α) (s : σ) (t : Task α) :
    σ × ℕ × ℕ × List ℕ × List ℤ :=
  let s1 := model.process_support_set s t.support_images t.support_labels
  let predictions := model.forward s1 t.query_images
  let number_of_correct_predictions :=
    (List.zipWith (fun (p : ℕ) (q : ℤ) => decide ((p : ℤ) = q))
      (predictions.map argmaxIdx) t.query_labels).count true
  let predicted_labels := predictions.map argmaxIdx
  (s1, number_of_correct_predictions, t.query_labels.length, predicted_labels, t.query_labels)

/-- The running aggregate of `evaluate` (src/easyfsl/utils.py:133-141):
model state plus the two counters and the two growing label lists. -/
structure EvalAcc (σ : Type) where
  state : σ
  total_predictions : ℕ
  correct_predictions : ℕ
  predictions_all : List ℕ
  query_labels_all : List ℤ

/-- Initial aggregate of an evaluation run: both counters 0, both lists
empty. -/
def initAcc {σ : Type} (s : σ) : EvalAcc σ :=
  ⟨s, 0, 0, [], []⟩

/-- One iteration of the episode loop of `evaluate`
(src/easyfsl/utils.py:182-194): delegate to `evaluate_on_one_task`,
add the returned counts to the running totals and append the returned
label sequences. -/
def evalStep {σ α : Type} (model : FewShotClassifier σ α) (acc : EvalAcc σ) (t : Task α) :
    EvalAcc σ :=
  let r := evaluate_on_one_task model acc.state t
  { state := r.1
    total_predictions := acc.total_predictions + r.2.2.1
    correct_predictions := acc.correct_predictions + r.2.1
    predictions_all := acc.predictions_all ++ r.2.2.2.1
    query_labels_all := acc.query_labels_all ++ r.2.2.2.2 }

/-- The episode loop of `evaluate` (src/easyfsl/utils.py:151-197).  After
accumulating each episode the code evaluates
`correct_predictions / total_predictions` (the running-accuracy update at
line 197, whose argument Python evaluates even when the progress bar is
disabled); when `total_predictions` is still 0 this raises
`ZeroDivisionError`, modelled as `none`. -/
def evalLoop {σ α : Type} (model : FewShotClassifier σ α) :
    EvalAcc σ → List (Task α) → Option (EvalAcc σ)
  | acc, [] => some acc
  | acc, t :: ts =>
    let acc1 := evalStep model acc t
    if acc1.total_predictions = 0 then none else evalLoop model acc1 ts

/-- Embedding of `evaluate(model, data_loader, ...)`
(src/easyfsl/utils.py:114-217): run the episode loop from the zeroed
aggregate and return `correct_predictions / total_predictions`; the final
division raises `ZeroDivisionError` (modelled as `none`) when
`total_predictions` is 0.  The F1/MSE/MAE computations at lines 207-214
only print and do not affect the returned value. -/
def evaluate {σ α : Type} (model : FewShotClassifier σ α) (s : σ) (tasks : List (Task α)) :
    Option ℚ :=
  match evalLoop model (initAcc s) tasks with
  | none => none
  | some acc =>
    if acc.total_predictions = 0 then none
    else some ((acc.correct_predictions : ℚ) / (acc.total_predictions : ℚ))

/-- The per-episode (correct, total) pairs produced by running
`evaluate_on_one_task` over a task list while threading the model state:
the reference against which the accumulated counters of `evaluate` are
checked. -/
def taskResults {σ α : Type} (model : FewShotClassifier σ α) : σ → List (Task α) → List (ℕ × ℕ)
  | _, [] => []
  | s, t :: ts =>
    let r := evaluate_on_one_task model s t
    (r.2.1, r.2.2.1) :: taskResults model r.1 ts

/-- One batch's labels as the embedding predictor receives them
(src/easyfsl/utils.py:80-83): either a label tensor (turned into a plain
list by `.tolist()`) or already a plain sequence; both carry the same list
of labels. -/
inductive LabelBatch (β : Type) where
  | tensor (labels : List β)
  | plain (labels : List β)

/-- The label list a batch contributes to `all_class_names`:
`class_names.tolist()` for a tensor, `class_names` itself otherwise. -/
def LabelBatch.toList {β : Type} : LabelBatch β → List β
  | .tensor l => l
  | .plain l => l

/-- One row of the dataframe returned by `predict_embeddings`: columns
`embedding` and `class_name` (src/easyfsl/utils.py:87-89). -/
structure EmbeddingRow (β : Type) where
  embedding : List ℚ
  class_name : β

/-- Embedding of `predict_embeddings(dataloader, model)`
(src/easyfsl/utils.py:56-89): collect the model's embedding batch and the
label list for every batch, concatenate them with `torch.cat` (which
raises on an empty list of tensors, modelled as `none` for an empty batch
sequence), and build the dataframe (pandas raises when the two columns
have different lengths, modelled as `none`).  Device moves, `detach()` and
`.cpu()` do not change values and are omitted. -/
def predict_embeddings {α β : Type} (batches : List (List α × LabelBatch β))
    (model : List α → List (List ℚ)) : Option (List (EmbeddingRow β)) :=
  if batches.isEmpty then none
  else
    let all_embeddings := (batches.map fun b => model b.1).flatten
    let all_class_names := (batches.map fun b => b.2.toList).flatten
    if all_embeddings.length = all_class_names.length then
      some ((all_embeddings.zip all_class_names).map fun p => ⟨p.1, p.2⟩)
    else none

/-- A concrete classifier used to instantiate the general theorems: state
`Unit`, every query row scored `[0, 1]` (argmax 1). -/
def demoClassifier : FewShotClassifier Unit Unit :=
  { process_support_set := fun _ _ _ => ()
    forward := fun _ queries => queries.map fun _ => [0, 1] }

/-- A concrete episode with two query items, true labels `[1, 0]`. -/
def demoTask : Task Unit :=
  { support_images := [()]
    support_labels := [0]
    query_images := [(), ()]
    query_labels := [1, 0] }

/-- A concrete episode whose query set is empty. -/
def emptyTask : Task Unit :=
  ⟨[], [], [], []⟩

/-- A concrete 4-dimensional feature extractor. -/
def demoExtractor : List Unit → List (List ℚ) :=
  fun b => b.map fun _ => [0, 0, 0, 0]

/-- Three concrete batches of sizes 2, 3 and 1, with labels arriving both
as tensors and as plain sequences. -/
def demoBatches : List (List Unit × LabelBatch ℤ) :=
  [([(), ()], LabelBatch.tensor [0, 1]),
   ([(), (), ()], LabelBatch.plain [2, 3, 4]),
   ([()], LabelBatch.tensor [5])]

/-- The mean of a non-empty list is its sum over its length. -/
theorem listMean_eq (l : List ℚ) (h : l ≠ []) :
    listMean l = some (l.sum / (l.length : ℚ)) := by
  simp [listMean, List.length_eq_zero, h]

/-- A list all of whose elements are 0 has mean 0 when non-empty. -/
theorem listMean_zero (l : List ℚ) (h : l ≠ []) (hz : ∀ x ∈ l, x = 0) :
    listMean l = some 0 := by
  rw [listMean_eq l h, List.sum_eq_zero hz, zero_div]

/-- C4: for every window value, `sliding_average` on the empty list fails
with the empty-input `ValueError` (returned as `Except.error` before any
slice or mean is computed), rather than returning a value. -/
theorem sliding_average_empty_error (w : ℤ) :
    sliding_average [] w =
      Except.error "Cannot perform sliding average on an empty list." := rfl

/-- C3: for a non-empty list `v` and a window `w` with `0 ≤ w ≤ v.length`,
`sliding_average v w` is the arithmetic mean of the last `w` elements of
`v` (when `1 ≤ w`), and is the mean of all of `v` when `w = 0` or `w`
exceeds `v.length`. -/
theorem sliding_average_spec (v : List ℚ) (w : ℤ) (hv : v ≠ []) :
    ((w = 0 ∨ (v.length : ℤ) < w) →
      sliding_average v w = Except.ok (some (v.sum / (v.length : ℚ)))) ∧
    (1 ≤ w → w ≤ (v.length : ℤ) →
      sliding_average v w =
        Except.ok (some ((v.drop (v.length - w.toNat)).sum / (w : ℚ)))) := by
  have hv0 : ¬ (v.length = 0) := by simpa [List.length_eq_zero] using hv
  constructor
  · rintro (rfl | hlt)
    · have hslice : pySliceFrom (-(0 : ℤ)) v = v := by simp [pySliceFrom]
      rw [sliding_average, if_neg hv0, hslice, listMean_eq v hv]
    · have hneg : -w < 0 := by omega
      have ht : ((v.length : ℤ) + -w).toNat = 0 := by omega
      have hslice : pySliceFrom (-w) v = v := by simp [pySliceFrom, hneg, ht]
      rw [sliding_average, if_neg hv0, hslice, listMean_eq v hv]
  · intro hw1 hw2
    have hwn : w.toNat ≤ v.length := by omega
    have hw0 : 1 ≤ w.toNat := by omega
    have hneg : -w < 0 := by omega
    have ht : ((v.length : ℤ) + -w).toNat = v.length - w.toNat := by omega
    have hslice : pySliceFrom (-w) v = v.drop (v.length - w.toNat) := by
      simp [pySliceFrom, hneg, ht]
    have hlen : (v.drop (v.length - w.toNat)).length = w.toNat := by
      rw [List.length_drop]
      omega
    have hne : v.drop (v.length - w.toNat) ≠ [] := by
      intro hcon
      rw [hcon] at hlen
      simp at hlen
      omega
    have hcast : ((w.toNat : ℕ) : ℚ) = (w : ℚ) := by
      exact_mod_cast congrArg (fun z : ℤ => (z : ℚ)) (Int.toNat_of_nonneg (by omega))
    rw [sliding_average, if_neg hv0, hslice, listMean_eq _ hne, hlen, hcast]

/-- Witness for C3 at `v = [1, 2, 3, 4]`, `w = 2`. -/
theorem sliding_average_spec_witness :
    sliding_average [1, 2, 3, 4] 2 =
      Except.ok (some ((([1, 2, 3, 4] : List ℚ).drop
        (([1, 2, 3, 4] : List ℚ).length - (2 : ℤ).toNat)).sum / ((2 : ℤ) : ℚ))) :=
  (sliding_average_spec [1, 2, 3, 4] 2 (by decide)).2 (by decide) (by decide)

/-- C10: for a non-empty list `v` and a negative window `w`,
`sliding_average` does not raise: it returns the mean of the elements of
`v` from index `|w|` onward, and when `|w| ≥ v.length` the sliced list is
empty and the result is numpy's NaN (`none`), the mean of no elements at
all. -/
theorem sliding_average_negative_window (v : List ℚ) (w : ℤ) (hv : v ≠ []) (hw : w < 0) :
    (w.natAbs < v.length →
      sliding_average v w =
        Except.ok (some ((v.drop w.natAbs).sum / ((v.length - w.natAbs : ℕ) : ℚ)))) ∧
    (v.length ≤ w.natAbs → sliding_average v w = Except.ok none) := by
  have hv0 : ¬ (v.length = 0) := by simpa [List.length_eq_zero] using hv
  have hpos : ¬ (-w < 0) := by omega
  have ht : (-w).toNat = w.natAbs := by omega
  have hslice : pySliceFrom (-w) v = v.drop w.natAbs := by simp [pySliceFrom, hpos, ht]
  constructor
  · intro hlt
    have hlen : (v.drop w.natAbs).length = v.length - w.natAbs := by
      simp [List.length_drop]
    have hne : v.drop w.natAbs ≠ [] := by
      intro hcon
      rw [hcon] at hlen
      simp at hlen
      omega
    rw [sliding_average, if_neg hv0, hslice, listMean_eq _ hne, hlen]
  · intro hge
    have hnil : v.drop w.natAbs = [] := List.drop_eq_nil_of_le hge
    rw [sliding_average, if_neg hv0, hslice, hnil]
    rfl

/-- Witness for C10 at `v = [1, 2, 3]`, `w = -1`. -/
theorem sliding_average_negative_window_witness :
    sliding_average [1, 2, 3] (-1) =
      Except.ok (some ((([1, 2, 3] : List ℚ).drop (-1 : ℤ).natAbs).sum /
        ((([1, 2, 3] : List ℚ).length - (-1 : ℤ).natAbs : ℕ) : ℚ))) :=
  (sliding_average_negative_window [1, 2, 3] (-1) (by decide) (by decide)).1 (by decide)

/-- Elementwise combination of two equal-length lists, rewritten as a map
over the index range. -/
theorem zipWith_eq_range_map (f : ℚ → ℚ → ℚ) :
    ∀ (xs ys : List ℚ), xs.length = ys.length →
      List.zipWith f xs ys =
        (List.range xs.length).map fun i => f (xs.getD i 0) (ys.getD i 0)
  | [], [], _ => by simp
  | [], _ :: _, h => by simp at h
  | _ :: _, [], h => by simp at h
  | x :: xs, y :: ys, h => by
    have ih := zipWith_eq_range_map f xs ys (by simpa using h)
    have hcomp : ((fun i => f ((x :: xs).getD i 0) ((y :: ys).getD i 0)) ∘ Nat.succ) =
        fun i => f (xs.getD i 0) (ys.getD i 0) := by
      funext i
      simp
    simp only [List.zipWith_cons_cons, List.length_cons, List.range_succ_eq_map,
      List.map_cons, List.map_map, List.getD_cons_zero, hcomp, ih]

/-- Zipping a list with itself is a map of the diagonal. -/
theorem zipWith_self_eq_map (f : ℚ → ℚ → ℚ) :
    ∀ (l : List ℚ), List.zipWith f l l = l.map fun a => f a a
  | [] => rfl
  | x :: xs => by simp [zipWith_self_eq_map f xs]

/-- Counterexample to C6 as stated: on the empty sequence the mean of the
(empty) squared/absolute differences is numpy's NaN, modelled `none`, so
`mean_squared_error(a, a) == 0` fails at `a = []`. -/
theorem mean_error_empty_counterexample :
    mean_squared_error ([] : List ℚ) [] = none ∧
    mean_squared_error ([] : List ℚ) [] ≠ some 0 ∧
    mean_absolute_error ([] : List ℚ) [] = none ∧
    mean_absolute_error ([] : List ℚ) [] ≠ some 0 :=
  ⟨rfl, by decide, rfl, by decide⟩

/-- C6 (amended to non-empty sequences): for equal-length sequences,
`mean_squared_error` is the mean of the squared elementwise differences
and `mean_absolute_error` the mean of the absolute elementwise
differences; both vanish on identical non-empty sequences, and on
`[1,2,3]` versus `[1,2,4]` both equal `1/3`. -/
theorem mean_error_spec (y_true y_pred : List ℚ) (h : y_true.length = y_pred.length)
    (hne : y_true ≠ []) :
    mean_squared_error y_true y_pred =
      some ((((List.range y_true.length).map
        fun i => (y_true.getD i 0 - y_pred.getD i 0) ^ 2).sum) / (y_true.length : ℚ)) ∧
    mean_absolute_error y_true y_pred =
      some ((((List.range y_true.length).map
        fun i => |y_true.getD i 0 - y_pred.getD i 0|).sum) / (y_true.length : ℚ)) ∧
    (∀ a : List ℚ, a ≠ [] →
      mean_squared_error a a = some 0 ∧ mean_absolute_error a a = some 0) ∧
    mean_squared_error [1, 2, 3] [1, 2, 4] = some (1 / 3) ∧
    mean_absolute_error [1, 2, 3] [1, 2, 4] = some (1 / 3) := by
  have hgen : ∀ (g : ℚ → ℚ → ℚ),
      listMean (List.zipWith g y_true y_pred) =
        some ((((List.range y_true.length).map
          fun i => g (y_true.getD i 0) (y_pred.getD i 0)).sum) / (y_true.length : ℚ)) := by
    intro g
    have hL : ((List.range y_true.length).map
        fun i => g (y_true.getD i 0) (y_pred.getD i 0)) ≠ [] := by
      intro hcon
      have := congrArg List.length hcon
      simp [List.length_eq_zero] at this
      exact hne this
    rw [zipWith_eq_range_map g y_true y_pred h, listMean_eq _ hL, List.length_map,
      List.length_range]
  have hself : ∀ (g : ℚ → ℚ → ℚ), (∀ x : ℚ, g x x = 0) → ∀ a : List ℚ, a ≠ [] →
      listMean (List.zipWith g a a) = some 0 := by
    intro g hg a ha
    rw [zipWith_self_eq_map g a]
    apply listMean_zero
    · simpa [List.map_eq_nil_iff] using ha
    · intro x hx
      rcases List.mem_map.mp hx with ⟨b, _, rfl⟩
      exact hg b
  refine ⟨hgen _, hgen _, ?_, ?_, ?_⟩
  · intro a ha
    exact ⟨hself _ (by intro x; ring) a ha, hself _ (by intro x; simp) a ha⟩
  · show listMean _ = _
    norm_num [listMean]
  · show listMean _ = _
    norm_num [listMean]

/-- Witness for C6 at `y_true = [1, 2, 3]`, `y_pred = [1, 2, 4]`. -/
theorem mean_error_spec_witness :
    mean_squared_error [1, 2, 3] [1, 2, 4] =
      some ((((List.range ([1, 2, 3] : List ℚ).length).map
        fun i => (([1, 2, 3] : List ℚ).getD i 0 - ([1, 2, 4] : List ℚ).getD i 0) ^ 2).sum) /
          ((([1, 2, 3] : List ℚ).length : ℕ) : ℚ)) ∧
    mean_absolute_error [1, 2, 3] [1, 2, 4] =
      some ((((List.range ([1, 2, 3] : List ℚ).length).map
        fun i => |([1, 2, 3] : List ℚ).getD i 0 - ([1, 2, 4] : List ℚ).getD i 0|).sum) /
          ((([1, 2, 3] : List ℚ).length : ℕ) : ℚ)) ∧
    (∀ a : List ℚ, a ≠ [] →
      mean_squared_error a a = some 0 ∧ mean_absolute_error a a = some 0) ∧
    mean_squared_error [1, 2, 3] [1, 2, 4] = some (1 / 3) ∧
    mean_absolute_error [1, 2, 3] [1, 2, 4] = some (1 / 3) :=
  mean_error_spec [1, 2, 3] [1, 2, 4] (by decide) (by decide)

/-- The argmax index of a non-empty row is a valid index. -/
theorem argmaxIdx_lt : ∀ (l : List ℚ), l ≠ [] → argmaxIdx l < l.length
  | [], h => absurd rfl h
  | [_], _ => by simp [argmaxIdx]
  | x :: y :: ys, _ => by
    have ih := argmaxIdx_lt (y :: ys) (by simp)
    simp only [List.length_cons] at ih ⊢
    by_cases hc : (y :: ys).getD (argmaxIdx (y :: ys)) 0 ≤ x
    · simp only [argmaxIdx, if_pos hc]
      omega
    · simp only [argmaxIdx, if_neg hc]
      omega

/-- The entry at the argmax index dominates every entry of the row. -/
theorem argmaxIdx_max : ∀ (l : List ℚ), ∀ a ∈ l, a ≤ l.getD (argmaxIdx l) 0
  | [], a, ha => absurd ha (List.not_mem_nil a)
  | [x], a, ha => by
    simp only [List.mem_singleton] at ha
    simp [argmaxIdx, ha]
  | x :: y :: ys, a, ha => by
    have ih := fun b hb => argmaxIdx_max (y :: ys) b hb
    by_cases hc : (y :: ys).getD (argmaxIdx (y :: ys)) 0 ≤ x
    · simp only [argmaxIdx, if_pos hc, List.getD_cons_zero]
      rcases List.mem_cons.mp ha with rfl | hm
      · exact le_refl a
      · exact le_trans (ih a hm) hc
    · simp only [argmaxIdx, if_neg hc, List.getD_cons_succ]
      rcases List.mem_cons.mp ha with rfl | hm
      · exact le_of_lt (lt_of_not_le hc)
      · exact ih a hm

/-- Counting the `true` entries of an elementwise comparison is counting
the matching pairs of the zipped lists. -/
theorem count_true_zipWith_eq_countP :
    ∀ (xs : List ℕ) (ys : List ℤ),
      (List.zipWith (fun (p : ℕ) (q : ℤ) => decide ((p : ℤ) = q)) xs ys).count true =
        (xs.zip ys).countP fun p => decide ((p.1 : ℤ) = p.2)
  | [], _ => by simp
  | _ :: _, [] => by simp
  | x :: xs, y :: ys => by
    have ih := count_true_zipWith_eq_countP xs ys
    simp only [List.zipWith_cons_cons, List.zip_cons_cons, List.count_cons,
      List.countP_cons, ih]
    by_cases hxy : (x : ℤ) = y <;> simp [hxy]

/-- C5: for an episode whose score matrix has one row per query label,
`evaluate_on_one_task` returns exactly four components: the predicted
labels are the per-row argmax of the score matrix (an index whose score
dominates the whole row), the correct count is the number of zipped
(predicted, true) pairs that agree, the total is `len(query_labels)`, and
the fourth component is the true-label sequence. -/
theorem evaluate_on_one_task_spec {σ α : Type} (model : FewShotClassifier σ α) (s : σ)
    (t : Task α) (_hq : t.query_labels ≠ [])
    (_hrows : (model.forward (model.process_support_set s t.support_images t.support_labels)
        t.query_images).length = t.query_labels.length) :
    (evaluate_on_one_task model s t).2.2.2.1 =
      (model.forward (model.process_support_set s t.support_images t.support_labels)
        t.query_images).map argmaxIdx ∧
    (∀ row ∈ model.forward (model.process_support_set s t.support_images t.support_labels)
        t.query_images, ∀ a ∈ row, a ≤ row.getD (argmaxIdx row) 0) ∧
    (evaluate_on_one_task model s t).2.1 =
      (((evaluate_on_one_task model s t).2.2.2.1.zip t.query_labels).countP
        fun p => decide ((p.1 : ℤ) = p.2)) ∧
    (evaluate_on_one_task model s t).2.2.1 = t.query_labels.length ∧
    (evaluate_on_one_task model s t).2.2.2.2 = t.query_labels := by
  refine ⟨rfl, ?_, ?_, rfl, rfl⟩
  · intro row _ a ha
    exact argmaxIdx_max row a ha
  · exact count_true_zipWith_eq_countP _ _

/-- Witness for C5 at the concrete classifier and episode. -/
theorem evaluate_on_one_task_spec_witness :
    (evaluate_on_one_task demoClassifier () demoTask).2.2.2.1 =
      (demoClassifier.forward (demoClassifier.process_support_set ()
        demoTask.support_images demoTask.support_labels)
        demoTask.query_images).map argmaxIdx ∧
    (∀ row ∈ demoClassifier.forward (demoClassifier.process_support_set ()
        demoTask.support_images demoTask.support_labels)
        demoTask.query_images, ∀ a ∈ row, a ≤ row.getD (argmaxIdx row) 0) ∧
    (evaluate_on_one_task demoClassifier () demoTask).2.1 =
      (((evaluate_on_one_task demoClassifier () demoTask).2.2.2.1.zip
        demoTask.query_labels).countP fun p => decide ((p.1 : ℤ) = p.2)) ∧
    (evaluate_on_one_task demoClassifier () demoTask).2.2.1 =
      demoTask.query_labels.length ∧
    (evaluate_on_one_task demoClassifier () demoTask).2.2.2.2 = demoTask.query_labels :=
  evaluate_on_one_task_spec demoClassifier () demoTask (by decide) (by decide)

/-- C9: the fourth returned component of `evaluate_on_one_task` is the
`query_labels` argument itself, unchanged, for every model, state and
episode: the single-task evaluator never modifies the query labels. -/
theorem evaluate_on_one_task_labels_unchanged {σ α : Type} (model : FewShotClassifier σ α)
    (s : σ) (t : Task α) :
    (evaluate_on_one_task model s t).2.2.2.2 = t.query_labels := rfl

/-- One episode contributes at most its query count to the correct
counter. -/
theorem correct_le_total_one_task {σ α : Type} (model : FewShotClassifier σ α) (s : σ)
    (t : Task α) :
    (evaluate_on_one_task model s t).2.1 ≤ (evaluate_on_one_task model s t).2.2.1 := by
  simp only [evaluate_on_one_task]
  calc (List.zipWith _ _ _).count true
      ≤ (List.zipWith (fun (p : ℕ) (q : ℤ) => decide ((p : ℤ) = q))
          (((model.forward (model.process_support_set s t.support_images t.support_labels)
            t.query_images)).map argmaxIdx) t.query_labels).length :=
        List.count_le_length _ _
    _ ≤ t.query_labels.length := by
        rw [List.length_zipWith]
        omega

/-- Folding the episode step preserves `correct ≤ total`. -/
theorem foldl_correct_le_total {σ α : Type} (model : FewShotClassifier σ α) :
    ∀ (tasks : List (Task α)) (acc : EvalAcc σ),
      acc.correct_predictions ≤ acc.total_predictions →
      (List.foldl (evalStep model) acc tasks).correct_predictions ≤
        (List.foldl (evalStep model) acc tasks).total_predictions
  | [], _, h => h
  | t :: ts, acc, h => by
    have hone := correct_le_total_one_task model acc.state t
    have hstep : (evalStep model acc t).correct_predictions ≤
        (evalStep model acc t).total_predictions := by
      simp only [evalStep]
      omega
    simpa using foldl_correct_le_total model ts (evalStep model acc t) hstep

/-- C2: throughout every run of the episodic driver, after each episode is
accumulated (that is, after folding the accumulation step over any prefix
of the episode list, starting from the zeroed aggregate), the running
`correct_predictions` counter is at most `total_predictions`. -/
theorem evaluate_correct_le_total {σ α : Type} (model : FewShotClassifier σ α) (s : σ)
    (tasks : List (Task α)) (n : ℕ) :
    (List.foldl (evalStep model) (initAcc s) (tasks.take n)).correct_predictions ≤
      (List.foldl (evalStep model) (initAcc s) (tasks.take n)).total_predictions :=
  foldl_correct_le_total model (tasks.take n) (initAcc s) (Nat.le_refl 0)

/-- Folding the episode step adds the query-set sizes to the total
counter. -/
theorem foldl_total {σ α : Type} (model : FewShotClassifier σ α) :
    ∀ (tasks : List (Task α)) (acc : EvalAcc σ),
      (List.foldl (evalStep model) acc tasks).total_predictions =
        acc.total_predictions + (tasks.map fun t => t.query_labels.length).sum
  | [], _ => by simp
  | t :: ts, acc => by
    have ih := foldl_total model ts (evalStep model acc t)
    simp only [List.foldl_cons, ih, List.map_cons, List.sum_cons]
    simp only [evalStep, evaluate_on_one_task]
    omega

/-- Folding the episode step adds the per-episode correct counts to the
correct counter. -/
theorem foldl_correct {σ α : Type} (model : FewShotClassifier σ α) :
    ∀ (tasks : List (Task α)) (acc : EvalAcc σ),
      (List.foldl (evalStep model) acc tasks).correct_predictions =
        acc.correct_predictions + ((taskResults model acc.state tasks).map Prod.fst).sum
  | [], _ => by simp [taskResults]
  | t :: ts, acc => by
    have ih := foldl_correct model ts (evalStep model acc t)
    have hstate : (evalStep model acc t).state =
        (evaluate_on_one_task model acc.state t).1 := rfl
    simp only [List.foldl_cons, ih, hstate, taskResults, List.map_cons, List.sum_cons]
    simp only [evalStep]
    omega

/-- The second components of the per-episode results are the query-set
sizes, whatever the threaded model state. -/
theorem taskResults_total {σ α : Type} (model : FewShotClassifier σ α) :
    ∀ (tasks : List (Task α)) (s : σ),
      (taskResults model s tasks).map Prod.snd = tasks.map fun t => t.query_labels.length
  | [], _ => rfl
  | t :: ts, s => by
    simp only [taskResults, List.map_cons, taskResults_total model ts]
    rfl

/-- Once the total counter is positive the episode loop cannot fail any
more and is a plain fold. -/
theorem evalLoop_eq_foldl {σ α : Type} (model : FewShotClassifier σ α) :
    ∀ (tasks : List (Task α)) (acc : EvalAcc σ), 0 < acc.total_predictions →
      evalLoop model acc tasks = some (List.foldl (evalStep model) acc tasks)
  | [], _, _ => rfl
  | t :: ts, acc, h => by
    have hpos : 0 < (evalStep model acc t).total_predictions := by
      simp only [evalStep]
      omega
    have ih := evalLoop_eq_foldl model ts (evalStep model acc t) hpos
    simp only [evalLoop, List.foldl_cons]
    rw [if_neg (by omega), ih]

/-- Counterexample to C1 as stated: on the non-empty episode sequence
consisting of one episode with an empty query set, `evaluate` hits the
division `correct_predictions / total_predictions` with
`total_predictions = 0` and fails (`none`) instead of returning an
accuracy. -/
theorem evaluate_zero_queries_counterexample :
    evaluate demoClassifier () [emptyTask] = none := rfl

/-- C1 (amended to episode sequences whose first episode has a non-empty
query set, which rules out the zero-denominator failure): `evaluate`
returns `correct_predictions / total_predictions` where the total is the
sum of the query-set sizes of all episodes and the correct count is the
sum of the per-episode correct counts returned by the single-task
evaluator. -/
theorem evaluate_accuracy {σ α : Type} (model : FewShotClassifier σ α) (s : σ)
    (t : Task α) (ts : List (Task α)) (h : t.query_labels ≠ []) :
    evaluate model s (t :: ts) =
      some (((((taskResults model s (t :: ts)).map Prod.fst).sum : ℕ) : ℚ) /
        ((((t :: ts).map fun tk => tk.query_labels.length).sum : ℕ) : ℚ)) ∧
    ((taskResults model s (t :: ts)).map Prod.snd).sum =
      ((t :: ts).map fun tk => tk.query_labels.length).sum := by
  have hlen : 0 < t.query_labels.length := List.length_pos.mpr h
  have hstep : (evalStep model (initAcc s) t).total_predictions = t.query_labels.length := by
    simp [evalStep, initAcc, evaluate_on_one_task]
  have hloop : evalLoop model (initAcc s) (t :: ts) =
      some (List.foldl (evalStep model) (initAcc s) (t :: ts)) := by
    simp only [evalLoop, List.foldl_cons]
    rw [if_neg (by omega), evalLoop_eq_foldl model ts _ (by omega)]
  have htot : (List.foldl (evalStep model) (initAcc s) (t :: ts)).total_predictions =
      ((t :: ts).map fun tk => tk.query_labels.length).sum := by
    rw [foldl_total]
    simp [initAcc]
  have hcor : (List.foldl (evalStep model) (initAcc s) (t :: ts)).correct_predictions =
      ((taskResults model s (t :: ts)).map Prod.fst).sum := by
    rw [foldl_correct]
    simp [initAcc]
  have hsum : ((t :: ts).map fun tk => tk.query_labels.length).sum ≠ 0 := by
    simp only [List.map_cons, List.sum_cons]
    omega
  constructor
  · simp only [evaluate, hloop, htot, hcor]
    rw [if_neg hsum]
  · rw [taskResults_total]

/-- Witness for C1 at the concrete classifier and episode. -/
theorem evaluate_accuracy_witness :
    evaluate demoClassifier () [demoTask] =
      some (((((taskResults demoClassifier () [demoTask]).map Prod.fst).sum : ℕ) : ℚ) /
        (((([demoTask] : List (Task Unit)).map
          fun tk => tk.query_labels.length).sum : ℕ) : ℚ)) ∧
    ((taskResults demoClassifier () [demoTask]).map Prod.snd).sum =
      (([demoTask] : List (Task Unit)).map fun tk => tk.query_labels.length).sum :=
  evaluate_accuracy demoClassifier () demoTask [] (by decide)

/-- C7: when every episode has an empty query set (in particular for the
empty episode sequence) the total prediction count stays 0 and `evaluate`
fails with the unguarded division by zero (`none`) instead of returning a
value. -/
theorem evaluate_no_predictions {σ α : Type} (model : FewShotClassifier σ α) (s : σ)
    (tasks : List (Task α)) (h : ∀ t ∈ tasks, t.query_labels = []) :
    evaluate model s tasks = none := by
  cases tasks with
  | nil => rfl
  | cons t ts =>
    have ht : t.query_labels = [] := h t (List.mem_cons_self t ts)
    have hz : (evalStep model (initAcc s) t).total_predictions = 0 := by
      simp [evalStep, initAcc, evaluate_on_one_task, ht]
    simp [evaluate, evalLoop, hz]

/-- Witness for C7 at the empty episode sequence. -/
theorem evaluate_no_predictions_witness :
    evaluate demoClassifier () ([] : List (Task Unit)) = none :=
  evaluate_no_predictions demoClassifier () [] (by simp)

/-- Counterexample to C8 as stated: for the data source yielding zero
batches, `torch.cat` on the empty list of embedding tensors fails
(`none`), so no table with 0 rows is returned. -/
theorem predict_embeddings_empty_counterexample :
    predict_embeddings ([] : List (List Unit × LabelBatch ℤ)) demoExtractor = none := rfl

/-- C8 (amended to non-empty batch sequences, with the feature extractor
producing one embedding row per input and one label per input as the
dataloader contract requires): `predict_embeddings` returns a table with
exactly one row per input element — the sum of the batch sizes — whose
`embedding` column is the concatenation of the per-batch embedding
matrices and whose `class_name` column is the concatenation of the
per-batch label lists, whether those arrive as tensors or as plain
sequences. -/
theorem predict_embeddings_spec {α β : Type} (model : List α → List (List ℚ))
    (batches : List (List α × LabelBatch β)) (hne : batches ≠ [])
    (hf : ∀ b ∈ batches, (model b.1).length = b.1.length)
    (hl : ∀ b ∈ batches, b.2.toList.length = b.1.length) :
    ∃ rows, predict_embeddings batches model = some rows ∧
      rows.length = (batches.map fun b => b.1.length).sum ∧
      rows.map EmbeddingRow.embedding = (batches.map fun b => model b.1).flatten ∧
      rows.map EmbeddingRow.class_name = (batches.map fun b => b.2.toList).flatten := by
  have hemb : ((batches.map fun b => model b.1).flatten).length =
      (batches.map fun b => b.1.length).sum := by
    rw [List.length_flatten, List.map_map]
    congr 1
    exact List.map_congr_left fun b hb => hf b hb
  have hcls : ((batches.map fun b => b.2.toList).flatten).length =
      (batches.map fun b => b.1.length).sum := by
    rw [List.length_flatten, List.map_map]
    congr 1
    exact List.map_congr_left fun b hb => hl b hb
  have hlen : ((batches.map fun b => model b.1).flatten).length =
      ((batches.map fun b => b.2.toList).flatten).length := by
    rw [hemb, hcls]
  have hempty : ¬ (batches.isEmpty = true) := by
    cases batches with
    | nil => exact absurd rfl hne
    | cons b bs => simp
  refine ⟨(((batches.map fun b => model b.1).flatten).zip
      ((batches.map fun b => b.2.toList).flatten)).map (fun p => ⟨p.1, p.2⟩),
    ?_, ?_, ?_, ?_⟩
  · simp only [predict_embeddings]
    rw [if_neg hempty, if_pos hlen]
  · rw [List.length_map, List.length_zip, hemb, hcls, min_self]
  · rw [List.map_map]
    have hproj : (EmbeddingRow.embedding ∘
        fun p : List ℚ × β => EmbeddingRow.mk p.1 p.2) = Prod.fst := by
      funext p
      rfl
    rw [hproj]
    exact List.map_fst_zip _ _ (le_of_eq hlen)
  · rw [List.map_map]
    have hproj : (EmbeddingRow.class_name ∘
        fun p : List ℚ × β => EmbeddingRow.mk p.1 p.2) = Prod.snd := by
      funext p
      rfl
    rw [hproj]
    exact List.map_snd_zip _ _ (le_of_eq hlen.symm)

/-- Witness for C8 at three batches of sizes 2, 3 and 1 with the
4-dimensional extractor, labels arriving both as tensors and as a plain
sequence. -/
theorem predict_embeddings_spec_witness :
    ∃ rows, predict_embeddings demoBatches demoExtractor = some rows ∧
      rows.length = (demoBatches.map fun b => b.1.length).sum ∧
      rows.map EmbeddingRow.embedding =
        (demoBatches.map fun b => demoExtractor b.1).flatten ∧
      rows.map EmbeddingRow.class_name = (demoBatches.map fun b => b.2.toList).flatten :=
  predict_embeddings_spec demoExtractor demoBatches (by simp [demoBatches])
    (by decide) (by decide)

end EasyFSL
